import Mathlib

/-!
Verification development for the grid-game viewer prototype.

The affine-transform core (`src/util/transforms.rs`), the viewer's camera
handling and the random path walk (`src/viewer.rs`) are embedded shallowly
over exact rationals: every `f32` value of the source is modelled as a `ℚ`,
so arithmetic identities hold exactly where the source relies on
floating-point rounding only.  Helper geometry provided by the external
`hex2d` crate (neighbour enumeration, axial-to-pixel conversion, ring
enumeration) is not part of this repository; those definitions are modelled
from the specification and say so in their doc comments.
-/

namespace GridGame

/-- Model of `egui::Pos2` / `egui::Vec2`: a pair of scalars, embedded over `ℚ`. -/
structure Pos2 where
  x : ℚ
  y : ℚ
deriving DecidableEq, Repr

instance : Add Pos2 := ⟨fun a b => ⟨a.x + b.x, a.y + b.y⟩⟩

instance : Sub Pos2 := ⟨fun a b => ⟨a.x - b.x, a.y - b.y⟩⟩

/-- Model of `f32::copysign`: the magnitude of `m` carrying the sign of `s`
(the sign of `0` is positive, matching the `+0.0` sign bit). -/
def copysign (m s : ℚ) : ℚ := if s < 0 then -|m| else |m|

/-- Model of `f32::signum` (`+1` for positive zero, matching the sign bit). -/
def signum (x : ℚ) : ℚ := if x < 0 then -1 else 1

/-- `Transform` from `src/util/transforms.rs`: per-axis scale and translation. -/
structure Transform where
  scale_x : ℚ
  scale_y : ℚ
  offset_x : ℚ
  offset_y : ℚ
deriving DecidableEq, Repr

namespace Transform

/-- `Transform::new_horizontal_padded` from `src/util/transforms.rs` lines 37-50:
maps the src rect inside the dst rect adding horizontal padding/letterboxing. -/
def new_horizontal_padded (src_p1 src_p2 dst_p1 dst_p2 : Pos2) : Transform :=
  let scale_y := (dst_p1.y - dst_p2.y) / (src_p1.y - src_p2.y)
  let offset_y := dst_p1.y - src_p1.y * scale_y
  let scale_x := copysign scale_y ((src_p2.x - src_p1.x) * (dst_p2.x - dst_p1.x))
  let src_x_middle := (src_p1.x + src_p2.x) / 2
  let dst_x_middle := (dst_p1.x + dst_p2.x) / 2
  let offset_x := dst_x_middle - src_x_middle * scale_x
  ⟨scale_x, scale_y, offset_x, offset_y⟩

/-- The local `fn tr(p: Pos2)` of `new_letterboxed`: swap the coordinates of a point. -/
def trPos (p : Pos2) : Pos2 := ⟨p.y, p.x⟩

/-- `Transform::transpose` from `src/util/transforms.rs` lines 53-60. -/
def transpose (t : Transform) : Transform :=
  ⟨t.scale_y, t.scale_x, t.offset_y, t.offset_x⟩

/-- `Transform::new_letterboxed` from `src/util/transforms.rs` lines 18-34. -/
def new_letterboxed (src_p1 src_p2 dst_p1 dst_p2 : Pos2) : Transform :=
  let src_width := |src_p1.x - src_p2.x|
  let src_height := |src_p1.y - src_p2.y|
  let dst_width := |dst_p1.x - dst_p2.x|
  let dst_height := |dst_p1.y - dst_p2.y|
  if src_height * dst_width > dst_height * src_width then
    new_horizontal_padded src_p1 src_p2 dst_p1 dst_p2
  else
    (new_horizontal_padded (trPos src_p1) (trPos src_p2) (trPos dst_p1) (trPos dst_p2)).transpose

/-- `Transform::inverse` from `src/util/transforms.rs` lines 64-73.  The two
`assert!` statements that abort the program on a zero scale are modelled by
returning `none`. -/
def inverse (t : Transform) : Option Transform :=
  if t.scale_x = 0 ∨ t.scale_y = 0 then none
  else some ⟨t.scale_x⁻¹, t.scale_y⁻¹, -t.offset_x / t.scale_x, -t.offset_y / t.scale_y⟩

/-- `Transform::map_point` from `src/util/transforms.rs` lines 76-81. -/
def map_point (t : Transform) (p : Pos2) : Pos2 :=
  ⟨p.x * t.scale_x + t.offset_x, p.y * t.scale_y + t.offset_y⟩

/-- `Transform::map_dist` from `src/util/transforms.rs` lines 84-86. -/
def map_dist (t : Transform) (x : ℚ) : ℚ := |x * t.scale_x| * signum x

end Transform

/-- `GRID_RADIUS` from `src/game.rs`: tiles from the center to the board edge. -/
def GRID_RADIUS : ℕ := 40

/-- `SQRT_3` from `src/viewer.rs`: the literal `1.7320508` (embedded exactly). -/
def SQRT_3 : ℚ := 17320508 / 10000000

/-- `GRID_WIDTH_IN_SIDE_LENGTHS` from `src/viewer.rs`. -/
def GRID_WIDTH_IN_SIDE_LENGTHS : ℚ := SQRT_3 * (GRID_RADIUS * 2 + 1 : ℕ)

/-- `GRID_HEIGHT_IN_SIDE_LENGTHS` from `src/viewer.rs`. -/
def GRID_HEIGHT_IN_SIDE_LENGTHS : ℚ := 3/2 * (GRID_RADIUS * 2 + 1 : ℕ) + 1/2

/-- `GRID_WIDTH` from `src/viewer.rs` (plus visual padding in the GUI). -/
def GRID_WIDTH : ℚ := GRID_WIDTH_IN_SIDE_LENGTHS + 2

/-- `GRID_HEIGHT` from `src/viewer.rs` (plus visual padding in the GUI). -/
def GRID_HEIGHT : ℚ := GRID_HEIGHT_IN_SIDE_LENGTHS + 2

/-- The camera-relevant fields of `GridGameViewer` (`zoom` and `camera`). -/
structure ViewState where
  zoom : ℚ
  camera : Pos2
deriving DecidableEq, Repr

/-- Model of `f32::clamp` (for `lo ≤ hi`; `NaN` does not exist in the model). -/
def clampQ (x lo hi : ℚ) : ℚ := if x < lo then lo else if hi < x then hi else x

/-- Model of `egui::Pos2::clamp`: componentwise clamp. -/
def Pos2.clampP (p lo hi : Pos2) : Pos2 := ⟨clampQ p.x lo.x hi.x, clampQ p.y lo.y hi.y⟩

/-- `GridGameViewer::make_transform` from `src/viewer.rs` lines 75-89; the
`ui.max_rect()` viewport is passed as its four sides. -/
def make_transform (v : ViewState) (rl rt rr rb : ℚ) : Transform :=
  Transform.new_letterboxed
    ⟨-GRID_WIDTH / 2 / v.zoom + v.camera.x, GRID_HEIGHT / 2 / v.zoom + v.camera.y⟩
    ⟨GRID_WIDTH / 2 / v.zoom + v.camera.x, -GRID_HEIGHT / 2 / v.zoom + v.camera.y⟩
    ⟨rl, rt⟩ ⟨rr, rb⟩

/-- The input-processing step of `GridGameViewer::paint_game`
(`src/viewer.rs` lines 94-106).  The factor `(scroll_delta.y / 500).exp()` is
passed in as `scrollFactor` (the exponential of a real number; the invariants
below hold for every rational value).  `dragging` models
`pointer.is_decidedly_dragging()` and `(dx, dy)` models `pointer.delta()`. -/
def inputStep (v : ViewState) (scrollFactor : ℚ) (dragging : Bool)
    (dx dy rl rt rr rb : ℚ) : ViewState :=
  let zoom2 := clampQ (v.zoom * scrollFactor) 1 10000
  if dragging then
    let px_scale := (make_transform ⟨zoom2, v.camera⟩ rl rt rr rb).map_dist 1
    let cam : Pos2 := ⟨v.camera.x - dx / px_scale, v.camera.y + dy / px_scale⟩
    ⟨zoom2, cam.clampP ⟨-GRID_WIDTH / 2, -GRID_HEIGHT / 2⟩ ⟨GRID_WIDTH / 2, GRID_HEIGHT / 2⟩⟩
  else
    ⟨zoom2, v.camera⟩

/-- Modelled from the spec: an `AxialCoordinate` of the external `hex2d`
crate — an integer pair `(x, y)` identifying a hex cell; the third axial
component `z = -x - y` is derivable, not stored. -/
structure Coord where
  x : ℤ
  y : ℤ
deriving DecidableEq, Repr

instance : Add Coord := ⟨fun a b => ⟨a.x + b.x, a.y + b.y⟩⟩

/-- Modelled from the spec: the six unit direction steps of the `hex2d`
lattice (`XY, XZ, YZ, ZY, ZX, YX` as axial differences). -/
def directions : List Coord := [⟨1, -1⟩, ⟨1, 0⟩, ⟨0, 1⟩, ⟨0, -1⟩, ⟨-1, 0⟩, ⟨-1, 1⟩]

/-- Modelled from the spec: `hex2d`'s `Coordinate::neighbors` — the six cells
whose axial difference from `c` is a unit direction. -/
def Coord.neighbors (c : Coord) : List Coord := directions.map (fun d => c + d)

/-- Modelled from the spec: `hex2d`'s `Coordinate::to_pixel` with
`Spacing::PointyTop(1.0)`; `√3` is the same rational constant the viewer uses. -/
def Coord.to_pixel (c : Coord) : Pos2 :=
  ⟨SQRT_3 * ((c.x : ℚ) + (c.y : ℚ) / 2), 3/2 * (c.y : ℚ)⟩

/-- `HEXAGON_CORNERS` from `src/viewer.rs` lines 25-33 (the first corner is
repeated at the end). -/
def HEXAGON_CORNERS : List Pos2 :=
  [⟨0, 1⟩, ⟨SQRT_3 / 2, 1/2⟩, ⟨SQRT_3 / 2, -(1/2)⟩, ⟨0, -1⟩,
   ⟨-(SQRT_3 / 2), -(1/2)⟩, ⟨-(SQRT_3 / 2), 1/2⟩, ⟨0, 1⟩]

/-- Corner lookup `HEXAGON_CORNERS[i]`. -/
def cornerAt (i : ℕ) : Pos2 := HEXAGON_CORNERS.getD i ⟨0, 1⟩

/-- The edge index chosen in `src/viewer.rs` lines 184-191: the match on
`tile.direction_to_cw(last_tile)` (the `hex2d` direction from `tile` to
`last_tile`, modelled from the spec as the axial difference), mapped to the
hard-coded corner indices `ZY→0, XY→1, XZ→2, YZ→3, YX→4, ZX→5`. -/
def edgeIndexOf (tile last : Coord) : ℕ :=
  let dx := last.x - tile.x
  let dy := last.y - tile.y
  if dx = 0 ∧ dy = -1 then 0
  else if dx = 1 ∧ dy = -1 then 1
  else if dx = 1 ∧ dy = 0 then 2
  else if dx = 0 ∧ dy = 1 then 3
  else if dx = -1 ∧ dy = 1 then 4
  else 5

/-- The lexicographic `<=` of the derived `Ord` on `hex2d::Coordinate`
(fields compared in declaration order `x`, then `y`). -/
def Coord.leB (a b : Coord) : Bool :=
  if a.x < b.x then true else if b.x < a.x then false else decide (a.y ≤ b.y)

/-- Rust's `Ord::min` on coordinates. -/
def Coord.minc (a b : Coord) : Coord := if a.leB b then a else b

/-- Rust's `Ord::max` on coordinates. -/
def Coord.maxc (a b : Coord) : Coord := if a.leB b then b else a

/-- The claimed-edge key from `src/viewer.rs` line 194:
`(tile.min(last_tile), tile.max(last_tile))` — the canonical `(min, max)`
pair of an unordered pair of cells. -/
def edgeKey (a b : Coord) : Coord × Coord := (a.minc b, a.maxc b)

/-- The screen-space midpoint of the edge crossed when stepping from `last`
to `tile`, as computed in `src/viewer.rs` lines 177-192: both endpoints are
corners of `tile`'s hexagon mapped through the world-to-screen transform, and
the midpoint is `e1 + (e2 - e1) / 2`. -/
def edgeMidpoint (T : Transform) (tile last : Coord) : Pos2 :=
  let idx := edgeIndexOf tile last
  let c := tile.to_pixel
  let e1 := T.map_point (c + cornerAt idx)
  let e2 := T.map_point (c + cornerAt (idx + 1))
  ⟨e1.x + (e2.x - e1.x) / 2, e1.y + (e2.y - e1.y) / 2⟩

/-- The neighbor picked by `last_tile.neighbors().choose(rng)`: the random
sample is modelled as an index into the six neighbors. -/
def pickNeighbor (c : Coord) (choice : ℕ) : Coord := c.neighbors.getD (choice % 6) c

/-- One accepted step of the path walk: the segment drawn from the cell
`fromTile` into `toTile`, the edge key inserted into the claimed-edge set,
and the new edge midpoint. -/
structure Step where
  fromTile : Coord
  toTile : Coord
  key : Coord × Coord
  mid : Pos2
deriving DecidableEq, Repr

/-- The loop state of the walk in `src/viewer.rs` lines 168-169:
`last_tile`, `last_edge`, and the shared `occupied_edges` set (modelled as a
duplicate-free list grown at the front). -/
structure WalkState where
  lastTile : Coord
  lastEdge : Option Pos2
  occupied : List (Coord × Coord)
deriving DecidableEq, Repr

/-- The `for _ in 0..100` walk loop of `src/viewer.rs` lines 170-224.  Each
iteration consumes one sampled neighbor index from `cs`; a sampled move is
rejected (`continue`) when its midpoint equals `last_edge` (a 180° reversal)
or its edge key is already claimed, and otherwise the key is inserted and a
step is emitted.  The budget of the source is `cs.length = 100`. -/
def walkPath (T : Transform) (s : WalkState) : List ℕ → WalkState × List Step
  | [] => (s, [])
  | c :: cs =>
    let tile := pickNeighbor s.lastTile c
    let edge := edgeMidpoint T tile s.lastTile
    let key := edgeKey tile s.lastTile
    if s.lastEdge = some edge ∨ key ∈ s.occupied then
      walkPath T s cs
    else
      let r := walkPath T ⟨tile, some edge, key :: s.occupied⟩ cs
      (r.1, ⟨s.lastTile, tile, key, edge⟩ :: r.2)

/-- The starting tile `Coordinate::new(10, -3)` of every path
(`src/viewer.rs` line 168). -/
def startTile : Coord := ⟨10, -3⟩

/-- One full path of the `for color in [RED, GREEN, YELLOW]` loop: the walk
starts at `startTile` with no previous edge, sharing the claimed-edge set. -/
def runPath (T : Transform) (occ : List (Coord × Coord)) (cs : List ℕ) :
    WalkState × List Step :=
  walkPath T ⟨startTile, none, occ⟩ cs

/-- The whole path-generation pass of `src/viewer.rs` lines 166-230: one walk
per color, all sharing the single `occupied_edges` set, which starts empty in
the caller.  Returns the final claimed-edge set and the accepted steps of
each path. -/
def runAll (T : Transform) : List (List ℕ) → List (Coord × Coord) →
    List (Coord × Coord) × List (List Step)
  | [], occ => (occ, [])
  | cs :: rest, occ =>
    let r := runPath T occ cs
    let r2 := runAll T rest r.1.occupied
    (r2.1, r.2 :: r2.2)

/-- The state after an accepted step of `walkPath` (abbreviates the
accepted branch of the loop body). -/
def accState (T : Transform) (s : WalkState) (c : ℕ) : WalkState :=
  ⟨pickNeighbor s.lastTile c,
    some (edgeMidpoint T (pickNeighbor s.lastTile c) s.lastTile),
    edgeKey (pickNeighbor s.lastTile c) s.lastTile :: s.occupied⟩

/-- The step emitted by an accepted iteration of `walkPath`. -/
def accStep (T : Transform) (s : WalkState) (c : ℕ) : Step :=
  ⟨s.lastTile, pickNeighbor s.lastTile c,
    edgeKey (pickNeighbor s.lastTile c) s.lastTile,
    edgeMidpoint T (pickNeighbor s.lastTile c) s.lastTile⟩

/-- A concrete walk state whose tile has all six of its edges already
claimed (no eligible neighbor at all). -/
def blockedState : WalkState :=
  ⟨startTile, none, startTile.neighbors.map (fun n => edgeKey n startTile)⟩

/-- Modelled from the spec: scaling an axial coordinate by an integer. -/
def Coord.scale (n : ℤ) (c : Coord) : Coord := ⟨n * c.x, n * c.y⟩

/-- The origin `Coordinate::new(0, 0)` of `src/viewer.rs` line 92 /
`src/main.rs` line 8. -/
def origin : Coord := ⟨0, 0⟩

/-- Modelled from the spec: the six unit directions in a fixed consistent
winding (60° between consecutive entries), used to walk a ring. -/
def ringDirs : List Coord := [⟨1, 0⟩, ⟨1, -1⟩, ⟨0, -1⟩, ⟨-1, 0⟩, ⟨-1, 1⟩, ⟨0, 1⟩]

/-- Modelled from the spec: side `k` of the radius-`r` ring around the
origin — it starts at the `k`-th corner `r • ringDirs[k]` and walks `r`
lattice-neighbor steps toward the next corner, excluding it. -/
def ringSide (r k : ℕ) : List Coord :=
  (List.range r).map (fun j : ℕ =>
    Coord.scale (r : ℤ) (ringDirs.getD k origin) +
      Coord.scale (j : ℤ) (ringDirs.getD ((k + 2) % 6) origin))

/-- Modelled from the spec: `hex2d`'s `ring_iter(r, Spin::CW(..))` used in
`src/viewer.rs` line 150 and `src/main.rs` line 14 — exactly the origin for
radius `0`, and otherwise the six sides of the radius-`r` hexagonal ring
walked in order, `6 * r` coordinates in total. -/
def ring (r : ℕ) : List Coord :=
  if r = 0 then [origin] else ((List.range 6).map (fun k => ringSide r k)).flatten

@[simp] theorem Pos2.add_x (a b : Pos2) : (a + b).x = a.x + b.x := rfl

@[simp] theorem Pos2.add_y (a b : Pos2) : (a + b).y = a.y + b.y := rfl

@[simp] theorem Pos2.sub_x (a b : Pos2) : (a - b).x = a.x - b.x := rfl

@[simp] theorem Pos2.sub_y (a b : Pos2) : (a - b).y = a.y - b.y := rfl

theorem copysign_ne_zero {m : ℚ} (s : ℚ) (hm : m ≠ 0) : copysign m s ≠ 0 := by
  unfold copysign
  split
  · simpa using hm
  · simpa using hm

/-- Any transform with non-zero scales round-trips points through `inverse` exactly. -/
theorem round_trip_of_scales (t : Transform) (hx : t.scale_x ≠ 0) (hy : t.scale_y ≠ 0)
    (p : Pos2) :
    t.inverse.map (fun ti => ti.map_point (t.map_point p)) = some p := by
  obtain ⟨px, py⟩ := p
  have hcond : ¬(t.scale_x = 0 ∨ t.scale_y = 0) := by
    rintro (h | h)
    · exact hx h
    · exact hy h
  rw [Transform.inverse, if_neg hcond]
  simp only [Option.map_some', Option.some.injEq, Transform.map_point, Pos2.mk.injEq]
  constructor <;> field_simp

theorem horizontal_padded_scale_y_ne_zero {s1 s2 d1 d2 : Pos2}
    (hs : s1.y ≠ s2.y) (hd : d1.y ≠ d2.y) :
    (Transform.new_horizontal_padded s1 s2 d1 d2).scale_y ≠ 0 := by
  simp only [Transform.new_horizontal_padded]
  exact div_ne_zero (sub_ne_zero.mpr hd) (sub_ne_zero.mpr hs)

theorem horizontal_padded_scale_x_ne_zero {s1 s2 d1 d2 : Pos2}
    (hs : s1.y ≠ s2.y) (hd : d1.y ≠ d2.y) :
    (Transform.new_horizontal_padded s1 s2 d1 d2).scale_x ≠ 0 := by
  simp only [Transform.new_horizontal_padded]
  exact copysign_ne_zero _ (div_ne_zero (sub_ne_zero.mpr hd) (sub_ne_zero.mpr hs))

/-- C1: for every transform built by `new_letterboxed` from a non-degenerate
src/dst rectangle pair and every point `p`,
`inverse(T).map_point(T.map_point(p))` recovers `p`.  Over the exact-rational
model the round trip is exact, hence in particular within any floating-point
tolerance such as `1e-4`. -/
theorem letterbox_inverse_round_trip (s1 s2 d1 d2 p : Pos2)
    (hsx : s1.x ≠ s2.x) (hsy : s1.y ≠ s2.y) (hdx : d1.x ≠ d2.x) (hdy : d1.y ≠ d2.y) :
    (Transform.new_letterboxed s1 s2 d1 d2).inverse.map
      (fun ti => ti.map_point ((Transform.new_letterboxed s1 s2 d1 d2).map_point p)) =
      some p := by
  rw [Transform.new_letterboxed]
  split
  · exact round_trip_of_scales _
      (horizontal_padded_scale_x_ne_zero hsy hdy)
      (horizontal_padded_scale_y_ne_zero hsy hdy) p
  · refine round_trip_of_scales _ ?_ ?_ p
    · show (Transform.new_horizontal_padded _ _ _ _).scale_y ≠ 0
      exact horizontal_padded_scale_y_ne_zero hsx hdx
    · show (Transform.new_horizontal_padded _ _ _ _).scale_x ≠ 0
      exact horizontal_padded_scale_x_ne_zero hsx hdx

/-- Witness for C1 at a concrete non-degenerate rectangle pair and point. -/
theorem letterbox_inverse_round_trip_witness :
    (Transform.new_letterboxed ⟨0, 0⟩ ⟨1, 1⟩ ⟨0, 0⟩ ⟨2, 1⟩).inverse.map
      (fun ti => ti.map_point
        ((Transform.new_letterboxed ⟨0, 0⟩ ⟨1, 1⟩ ⟨0, 0⟩ ⟨2, 1⟩).map_point ⟨1/3, 1/4⟩)) =
      some ⟨1/3, 1/4⟩ :=
  letterbox_inverse_round_trip ⟨0, 0⟩ ⟨1, 1⟩ ⟨0, 0⟩ ⟨2, 1⟩ ⟨1/3, 1/4⟩
    (by norm_num) (by norm_num) (by norm_num) (by norm_num)

/-- C2: when the aspect ratios of the source and destination rectangles differ
(compared by cross-multiplication exactly as the code does), the letterboxed
transform maps the source midpoint coordinate on the padded axis exactly onto
the destination midpoint coordinate on that axis: the padded axis is X in the
horizontally padded branch and Y otherwise. -/
theorem letterbox_centers_on_padded_axis (s1 s2 d1 d2 : Pos2)
    (hne : |s1.y - s2.y| * |d1.x - d2.x| ≠ |d1.y - d2.y| * |s1.x - s2.x|) :
    (if |s1.y - s2.y| * |d1.x - d2.x| > |d1.y - d2.y| * |s1.x - s2.x| then
      ((Transform.new_letterboxed s1 s2 d1 d2).map_point
        ⟨(s1.x + s2.x) / 2, (s1.y + s2.y) / 2⟩).x = (d1.x + d2.x) / 2
    else
      ((Transform.new_letterboxed s1 s2 d1 d2).map_point
        ⟨(s1.x + s2.x) / 2, (s1.y + s2.y) / 2⟩).y = (d1.y + d2.y) / 2) := by
  clear hne
  rw [Transform.new_letterboxed]
  split
  · simp only [Transform.new_horizontal_padded, Transform.map_point]
    ring
  · simp only [Transform.new_horizontal_padded, Transform.transpose, Transform.trPos,
      Transform.map_point]
    ring

/-- Witness for C2: a square source inside a wide destination
(`2 * 200 > 100 * 2`, so the padded axis is X, and the mapped source midpoint
hits the destination midpoint `100` on that axis). -/
theorem letterbox_centers_on_padded_axis_witness :
    |(-1 : ℚ) - 1| * |(0 : ℚ) - 200| ≠ |(0 : ℚ) - 100| * |(-1 : ℚ) - 1| ∧
    (if |(-1 : ℚ) - 1| * |(0 : ℚ) - 200| > |(0 : ℚ) - 100| * |(-1 : ℚ) - 1| then
      ((Transform.new_letterboxed ⟨-1, -1⟩ ⟨1, 1⟩ ⟨0, 0⟩ ⟨200, 100⟩).map_point
        ⟨((-1 : ℚ) + 1) / 2, ((-1 : ℚ) + 1) / 2⟩).x = ((0 : ℚ) + 200) / 2
    else
      ((Transform.new_letterboxed ⟨-1, -1⟩ ⟨1, 1⟩ ⟨0, 0⟩ ⟨200, 100⟩).map_point
        ⟨((-1 : ℚ) + 1) / 2, ((-1 : ℚ) + 1) / 2⟩).y = ((0 : ℚ) + 100) / 2) :=
  ⟨by norm_num, letterbox_centers_on_padded_axis ⟨-1, -1⟩ ⟨1, 1⟩ ⟨0, 0⟩ ⟨200, 100⟩
    (by norm_num)⟩

/-- C5: `new_letterboxed` decides the padding axis by comparing the products
`src_height * dst_width` and `dst_height * src_width` of the absolute extents
(no aspect-ratio division anywhere).  When the source is relatively taller it
returns `new_horizontal_padded` on the original rectangles; otherwise it
transposes both rectangles, computes the horizontally padded transform, and
transposes the result back, swapping `scale_x`/`scale_y` and
`offset_x`/`offset_y`.  This holds for every pair of input rectangles,
including zero extents and opposite-signed extents. -/
theorem letterbox_branch_structure (s1 s2 d1 d2 : Pos2) :
    Transform.new_letterboxed s1 s2 d1 d2 =
      if |s1.y - s2.y| * |d1.x - d2.x| > |d1.y - d2.y| * |s1.x - s2.x| then
        Transform.new_horizontal_padded s1 s2 d1 d2
      else
        { scale_x := (Transform.new_horizontal_padded ⟨s1.y, s1.x⟩ ⟨s2.y, s2.x⟩
            ⟨d1.y, d1.x⟩ ⟨d2.y, d2.x⟩).scale_y,
          scale_y := (Transform.new_horizontal_padded ⟨s1.y, s1.x⟩ ⟨s2.y, s2.x⟩
            ⟨d1.y, d1.x⟩ ⟨d2.y, d2.x⟩).scale_x,
          offset_x := (Transform.new_horizontal_padded ⟨s1.y, s1.x⟩ ⟨s2.y, s2.x⟩
            ⟨d1.y, d1.x⟩ ⟨d2.y, d2.x⟩).offset_y,
          offset_y := (Transform.new_horizontal_padded ⟨s1.y, s1.x⟩ ⟨s2.y, s2.x⟩
            ⟨d1.y, d1.x⟩ ⟨d2.y, d2.x⟩).offset_x } := by
  rw [Transform.new_letterboxed]
  split
  · rfl
  · rfl

/-- C6 (code evaluation at the failing input): constructing a transform from
the degenerate zero-extent source rectangle `((0,0),(0,0))` into
`((0,0),(1,1))` is not rejected: `new_letterboxed` completes and returns a
transform with both scales degenerate (in `f32` the division by the zero
extent silently yields a non-finite scale; in the exact model the total
division yields `0`).  The zero-scale check only happens later, in `inverse`,
which is where the failure surfaces. -/
theorem letterbox_degenerate_not_rejected :
    Transform.new_letterboxed ⟨0, 0⟩ ⟨0, 0⟩ ⟨0, 0⟩ ⟨1, 1⟩ =
      ⟨0, 0, 0, 1/2⟩ ∧
    (Transform.new_letterboxed ⟨0, 0⟩ ⟨0, 0⟩ ⟨0, 0⟩ ⟨1, 1⟩).inverse = none := by
  constructor
  · rw [Transform.new_letterboxed]
    norm_num [Transform.new_horizontal_padded, Transform.transpose, Transform.trPos,
      copysign]
  · rw [Transform.new_letterboxed]
    norm_num [Transform.new_horizontal_padded, Transform.transpose, Transform.trPos,
      copysign, Transform.inverse]

/-- C9 (counterexample): for `src = rect((-1,-1),(1,1))`,
`dst = rect((0,0),(200,100))` the claim says the construction pads along the
vertical axis, i.e. takes the transposed (vertically padded) branch.  It does
not: the comparison `2 * 200 > 100 * 2` holds, the horizontally padded branch
is taken, and the resulting transform differs from the vertically padded one. -/
theorem letterbox_example_not_vertical :
    Transform.new_letterboxed ⟨-1, -1⟩ ⟨1, 1⟩ ⟨0, 0⟩ ⟨200, 100⟩ ≠
      (Transform.new_horizontal_padded (Transform.trPos ⟨-1, -1⟩) (Transform.trPos ⟨1, 1⟩)
        (Transform.trPos ⟨0, 0⟩) (Transform.trPos ⟨200, 100⟩)).transpose ∧
    |(-1 : ℚ) - 1| * |(0 : ℚ) - 200| > |(0 : ℚ) - 100| * |(-1 : ℚ) - 1| := by
  constructor
  · rw [Transform.new_letterboxed]
    norm_num [Transform.new_horizontal_padded, Transform.transpose, Transform.trPos,
      copysign]
  · norm_num

/-- C9 (amended): for `src = rect((-1,-1),(1,1))`, `dst = rect((0,0),(200,100))`
the letterboxed construction pads along the horizontal axis (it takes the
`new_horizontal_padded` branch), and mapping the source center `(0,0)` yields
the destination center `(100,50)`. -/
theorem letterbox_example_pads_horizontally :
    Transform.new_letterboxed ⟨-1, -1⟩ ⟨1, 1⟩ ⟨0, 0⟩ ⟨200, 100⟩ =
      Transform.new_horizontal_padded ⟨-1, -1⟩ ⟨1, 1⟩ ⟨0, 0⟩ ⟨200, 100⟩ ∧
    (Transform.new_letterboxed ⟨-1, -1⟩ ⟨1, 1⟩ ⟨0, 0⟩ ⟨200, 100⟩).map_point ⟨0, 0⟩ =
      ⟨100, 50⟩ := by
  constructor
  · rw [Transform.new_letterboxed]
    norm_num
  · rw [Transform.new_letterboxed]
    norm_num [Transform.new_horizontal_padded, Transform.map_point, copysign]

theorem clampQ_mem {lo hi : ℚ} (x : ℚ) (h : lo ≤ hi) :
    lo ≤ clampQ x lo hi ∧ clampQ x lo hi ≤ hi := by
  unfold clampQ
  split
  · exact ⟨le_refl lo, h⟩
  · split
    · exact ⟨h, le_refl hi⟩
    · constructor <;> linarith [lt_or_ge x lo, lt_or_ge hi x]

/-- C10: one input-processing step keeps the zoom factor inside `[1, 10^4]`
and keeps the camera inside the rectangle from
`(-GRID_WIDTH/2, -GRID_HEIGHT/2)` to `(GRID_WIDTH/2, GRID_HEIGHT/2)`:
scrolling and dragging can never move the zoom or the camera out of bounds. -/
theorem camera_zoom_bounds (v : ViewState) (scrollFactor : ℚ) (dragging : Bool)
    (dx dy rl rt rr rb : ℚ)
    (hcx : -GRID_WIDTH / 2 ≤ v.camera.x ∧ v.camera.x ≤ GRID_WIDTH / 2)
    (hcy : -GRID_HEIGHT / 2 ≤ v.camera.y ∧ v.camera.y ≤ GRID_HEIGHT / 2) :
    (1 ≤ (inputStep v scrollFactor dragging dx dy rl rt rr rb).zoom ∧
      (inputStep v scrollFactor dragging dx dy rl rt rr rb).zoom ≤ 10000) ∧
    (-GRID_WIDTH / 2 ≤ (inputStep v scrollFactor dragging dx dy rl rt rr rb).camera.x ∧
      (inputStep v scrollFactor dragging dx dy rl rt rr rb).camera.x ≤ GRID_WIDTH / 2) ∧
    (-GRID_HEIGHT / 2 ≤ (inputStep v scrollFactor dragging dx dy rl rt rr rb).camera.y ∧
      (inputStep v scrollFactor dragging dx dy rl rt rr rb).camera.y ≤ GRID_HEIGHT / 2) := by
  have hW : -GRID_WIDTH / 2 ≤ GRID_WIDTH / 2 := by
    norm_num [GRID_WIDTH, GRID_WIDTH_IN_SIDE_LENGTHS, SQRT_3, GRID_RADIUS]
  have hH : -GRID_HEIGHT / 2 ≤ GRID_HEIGHT / 2 := by
    norm_num [GRID_HEIGHT, GRID_HEIGHT_IN_SIDE_LENGTHS, GRID_RADIUS]
  have hz : (1 : ℚ) ≤ 10000 := by norm_num
  unfold inputStep
  cases dragging with
  | false =>
    simp only [Bool.false_eq_true, if_false]
    exact ⟨clampQ_mem _ hz, hcx, hcy⟩
  | true =>
    simp only [if_true, Pos2.clampP]
    exact ⟨clampQ_mem _ hz, clampQ_mem _ hW, clampQ_mem _ hH⟩

/-- Witness for C10 at a concrete in-bounds state and concrete inputs. -/
theorem camera_zoom_bounds_witness :
    ((-GRID_WIDTH / 2 ≤ (0 : ℚ) ∧ (0 : ℚ) ≤ GRID_WIDTH / 2) ∧
      (-GRID_HEIGHT / 2 ≤ (0 : ℚ) ∧ (0 : ℚ) ≤ GRID_HEIGHT / 2)) ∧
    ((1 ≤ (inputStep ⟨1, ⟨0, 0⟩⟩ 3 true 5 (-7) 0 0 640 480).zoom ∧
      (inputStep ⟨1, ⟨0, 0⟩⟩ 3 true 5 (-7) 0 0 640 480).zoom ≤ 10000) ∧
    (-GRID_WIDTH / 2 ≤ (inputStep ⟨1, ⟨0, 0⟩⟩ 3 true 5 (-7) 0 0 640 480).camera.x ∧
      (inputStep ⟨1, ⟨0, 0⟩⟩ 3 true 5 (-7) 0 0 640 480).camera.x ≤ GRID_WIDTH / 2) ∧
    (-GRID_HEIGHT / 2 ≤ (inputStep ⟨1, ⟨0, 0⟩⟩ 3 true 5 (-7) 0 0 640 480).camera.y ∧
      (inputStep ⟨1, ⟨0, 0⟩⟩ 3 true 5 (-7) 0 0 640 480).camera.y ≤ GRID_HEIGHT / 2)) := by
  have hb : ((-GRID_WIDTH / 2 ≤ (0 : ℚ) ∧ (0 : ℚ) ≤ GRID_WIDTH / 2) ∧
      (-GRID_HEIGHT / 2 ≤ (0 : ℚ) ∧ (0 : ℚ) ≤ GRID_HEIGHT / 2)) := by
    norm_num [GRID_WIDTH, GRID_WIDTH_IN_SIDE_LENGTHS, GRID_HEIGHT,
      GRID_HEIGHT_IN_SIDE_LENGTHS, SQRT_3, GRID_RADIUS]
  exact ⟨hb, camera_zoom_bounds ⟨1, ⟨0, 0⟩⟩ 3 true 5 (-7) 0 0 640 480 hb.1 hb.2⟩

@[simp] theorem Coord.x_add (a b : Coord) : (a + b).x = a.x + b.x := rfl

@[simp] theorem Coord.y_add (a b : Coord) : (a + b).y = a.y + b.y := rfl

theorem walkPath_nil (T : Transform) (s : WalkState) : walkPath T s [] = (s, []) := rfl

theorem walkPath_cons_rejected (T : Transform) (s : WalkState) (c : ℕ) (cs : List ℕ)
    (h : s.lastEdge = some (edgeMidpoint T (pickNeighbor s.lastTile c) s.lastTile) ∨
      edgeKey (pickNeighbor s.lastTile c) s.lastTile ∈ s.occupied) :
    walkPath T s (c :: cs) = walkPath T s cs := by
  simp only [walkPath]
  rw [if_pos h]

theorem walkPath_cons_accepted (T : Transform) (s : WalkState) (c : ℕ) (cs : List ℕ)
    (h : ¬(s.lastEdge = some (edgeMidpoint T (pickNeighbor s.lastTile c) s.lastTile) ∨
      edgeKey (pickNeighbor s.lastTile c) s.lastTile ∈ s.occupied)) :
    walkPath T s (c :: cs) =
      ((walkPath T (accState T s c) cs).1,
        accStep T s c :: (walkPath T (accState T s c) cs).2) := by
  simp only [walkPath]
  rw [if_neg h]
  rfl

theorem pickNeighbor_mem (c : Coord) (i : ℕ) : pickNeighbor c i ∈ c.neighbors := by
  have h : i % 6 = 0 ∨ i % 6 = 1 ∨ i % 6 = 2 ∨ i % 6 = 3 ∨ i % 6 = 4 ∨ i % 6 = 5 := by
    omega
  unfold pickNeighbor Coord.neighbors directions
  rcases h with h | h | h | h | h | h <;> rw [h] <;> simp

/-- The claimed-edge set after a walk consists of the keys of the accepted
steps (newest first), on top of the initial set. -/
theorem walkPath_occupied (T : Transform) :
    ∀ (cs : List ℕ) (s : WalkState),
      ((walkPath T s cs).1).occupied =
        (((walkPath T s cs).2).map Step.key).reverse ++ s.occupied := by
  intro cs
  induction cs with
  | nil => intro s; simp [walkPath]
  | cons c cs ih =>
    intro s
    by_cases h : s.lastEdge = some (edgeMidpoint T (pickNeighbor s.lastTile c) s.lastTile) ∨
        edgeKey (pickNeighbor s.lastTile c) s.lastTile ∈ s.occupied
    · rw [walkPath_cons_rejected T s c cs h]
      exact ih s
    · rw [walkPath_cons_accepted T s c cs h]
      have hih := ih (accState T s c)
      simp only [accState] at hih
      simp [accState, accStep, hih, List.append_assoc]

/-- A walk never duplicates a key in the claimed-edge set. -/
theorem walkPath_occupied_nodup (T : Transform) :
    ∀ (cs : List ℕ) (s : WalkState), s.occupied.Nodup →
      ((walkPath T s cs).1).occupied.Nodup := by
  intro cs
  induction cs with
  | nil => intro s hs; simpa [walkPath] using hs
  | cons c cs ih =>
    intro s hs
    by_cases h : s.lastEdge = some (edgeMidpoint T (pickNeighbor s.lastTile c) s.lastTile) ∨
        edgeKey (pickNeighbor s.lastTile c) s.lastTile ∈ s.occupied
    · rw [walkPath_cons_rejected T s c cs h]
      exact ih s hs
    · rw [walkPath_cons_accepted T s c cs h]
      refine ih (accState T s c) ?_
      rcases not_or.mp h with ⟨-, hmem⟩
      exact List.nodup_cons.mpr ⟨hmem, hs⟩

/-- Every accepted step goes to a neighbor of the previous tile and records
the canonical edge key of that pair. -/
theorem walkPath_steps_sound (T : Transform) :
    ∀ (cs : List ℕ) (s : WalkState), ∀ st ∈ (walkPath T s cs).2,
      st.toTile ∈ st.fromTile.neighbors ∧ st.key = edgeKey st.toTile st.fromTile := by
  intro cs
  induction cs with
  | nil => intro s st hst; simp [walkPath] at hst
  | cons c cs ih =>
    intro s st hst
    by_cases h : s.lastEdge = some (edgeMidpoint T (pickNeighbor s.lastTile c) s.lastTile) ∨
        edgeKey (pickNeighbor s.lastTile c) s.lastTile ∈ s.occupied
    · rw [walkPath_cons_rejected T s c cs h] at hst
      exact ih s st hst
    · rw [walkPath_cons_accepted T s c cs h] at hst
      replace hst : st ∈ accStep T s c :: (walkPath T (accState T s c) cs).2 := hst
      rcases List.mem_cons.mp hst with rfl | hst2
      · exact ⟨pickNeighbor_mem s.lastTile c, rfl⟩
      · exact ih (accState T s c) st hst2

/-- Within a walk, each accepted step starts at the tile the previous
accepted step reached; the first one starts at the walk's current tile. -/
theorem walkPath_tile_chain (T : Transform) :
    ∀ (cs : List ℕ) (s : WalkState),
      List.Chain' (fun a b => a.toTile = b.fromTile) (walkPath T s cs).2 ∧
      (∀ st, ((walkPath T s cs).2).head? = some st → st.fromTile = s.lastTile) := by
  intro cs
  induction cs with
  | nil => intro s; simp [walkPath]
  | cons c cs ih =>
    intro s
    by_cases h : s.lastEdge = some (edgeMidpoint T (pickNeighbor s.lastTile c) s.lastTile) ∨
        edgeKey (pickNeighbor s.lastTile c) s.lastTile ∈ s.occupied
    · rw [walkPath_cons_rejected T s c cs h]
      exact ih s
    · rw [walkPath_cons_accepted T s c cs h]
      obtain ⟨hchain, hhead⟩ := ih (accState T s c)
      constructor
      · refine List.chain'_cons'.mpr ⟨?_, hchain⟩
        intro b hb
        have hb' : ((walkPath T (accState T s c) cs).2).head? = some b := hb
        have hfrom := hhead b hb'
        show (accStep T s c).toTile = b.fromTile
        rw [hfrom]
        rfl
      · intro st hst
        replace hst : (accStep T s c :: (walkPath T (accState T s c) cs).2).head? =
          some st := hst
        rw [List.head?_cons] at hst
        rw [← Option.some.inj hst]
        rfl

/-- Midpoint bookkeeping of the walk: `last_edge` always holds the midpoint
of the last accepted step, consecutive accepted steps have different
midpoints, and the first accepted step's midpoint differs from the incoming
`last_edge`. -/
theorem walkPath_mid (T : Transform) :
    ∀ (cs : List ℕ) (s : WalkState),
      ((walkPath T s cs).1.lastEdge =
        (((walkPath T s cs).2).getLast?).elim s.lastEdge (fun st => some st.mid)) ∧
      List.Chain' (fun a b => b.mid ≠ a.mid) (walkPath T s cs).2 ∧
      (∀ st, ((walkPath T s cs).2).head? = some st → s.lastEdge ≠ some st.mid) := by
  intro cs
  induction cs with
  | nil => intro s; simp [walkPath]
  | cons c cs ih =>
    intro s
    by_cases h : s.lastEdge = some (edgeMidpoint T (pickNeighbor s.lastTile c) s.lastTile) ∨
        edgeKey (pickNeighbor s.lastTile c) s.lastTile ∈ s.occupied
    · rw [walkPath_cons_rejected T s c cs h]
      exact ih s
    · rw [walkPath_cons_accepted T s c cs h]
      obtain ⟨hlast, hchain, hhead⟩ := ih (accState T s c)
      rcases not_or.mp h with ⟨hrev, -⟩
      refine ⟨?_, ?_, ?_⟩
      · show (walkPath T (accState T s c) cs).1.lastEdge =
          ((accStep T s c :: (walkPath T (accState T s c) cs).2).getLast?).elim
            s.lastEdge (fun st => some st.mid)
        rw [hlast]
        cases hx : ((walkPath T (accState T s c) cs).2) with
        | nil => simp [accState, accStep]
        | cons b l =>
          rw [List.getLast?_cons_cons]
          rw [List.getLast?_eq_getLast (b :: l) (by simp)]
          rfl
      · refine List.chain'_cons'.mpr ⟨?_, hchain⟩
        intro b hb
        have hb' : ((walkPath T (accState T s c) cs).2).head? = some b := hb
        have hne := hhead b hb'
        show b.mid ≠ (accStep T s c).mid
        intro hc
        refine hne ?_
        show some (edgeMidpoint T (pickNeighbor s.lastTile c) s.lastTile) = some b.mid
        rw [hc]
        rfl
      · intro st hst
        replace hst : (accStep T s c :: (walkPath T (accState T s c) cs).2).head? =
          some st := hst
        rw [List.head?_cons] at hst
        rw [← Option.some.inj hst]
        exact hrev

/-- `edgeKey` identifies the unordered pair that produced it: two unordered
`{tile, neighbor}` pairs yield the same key only when they are the same pair. -/
theorem edgeKey_inj (a b c d : Coord) (h : edgeKey a b = edgeKey c d) :
    (a = c ∧ b = d) ∨ (a = d ∧ b = c) := by
  unfold edgeKey Coord.minc Coord.maxc at h
  rcases Prod.mk.injEq .. ▸ h with ⟨h1, h2⟩
  by_cases hab : a.leB b <;> by_cases hcd : c.leB d <;>
    simp only [hab, hcd, if_true, if_false] at h1 h2 <;> subst h1 <;> subst h2 <;> tauto

/-- The claimed-edge set after a whole pass is the (reversed) list of the
keys of all accepted steps of all paths, on top of the initial set. -/
theorem runAll_occupied (T : Transform) :
    ∀ (css : List (List ℕ)) (occ : List (Coord × Coord)),
      (runAll T css occ).1 =
        ((((runAll T css occ).2).flatten).map Step.key).reverse ++ occ := by
  intro css
  induction css with
  | nil => intro occ; simp [runAll]
  | cons cs rest ih =>
    intro occ
    show (runAll T rest (runPath T occ cs).1.occupied).1 =
      ((((runPath T occ cs).2 :: (runAll T rest (runPath T occ cs).1.occupied).2).flatten).map
        Step.key).reverse ++ occ
    rw [ih ((runPath T occ cs).1.occupied)]
    rw [show (runPath T occ cs).1.occupied =
      (((runPath T occ cs).2).map Step.key).reverse ++ occ from walkPath_occupied T cs _]
    simp [List.append_assoc]

/-- A whole pass never duplicates a key in the shared claimed-edge set. -/
theorem runAll_occupied_nodup (T : Transform) :
    ∀ (css : List (List ℕ)) (occ : List (Coord × Coord)), occ.Nodup →
      ((runAll T css occ).1).Nodup := by
  intro css
  induction css with
  | nil => intro occ h; simpa [runAll] using h
  | cons cs rest ih =>
    intro occ h
    show ((runAll T rest (runPath T occ cs).1.occupied).1).Nodup
    exact ih _ (walkPath_occupied_nodup T cs _ h)

/-- Step soundness lifted to a whole pass. -/
theorem runAll_steps_sound (T : Transform) :
    ∀ (css : List (List ℕ)) (occ : List (Coord × Coord)),
      ∀ st ∈ ((runAll T css occ).2).flatten,
        st.toTile ∈ st.fromTile.neighbors ∧ st.key = edgeKey st.toTile st.fromTile := by
  intro css
  induction css with
  | nil => intro occ st hst; simp [runAll] at hst
  | cons cs rest ih =>
    intro occ st hst
    replace hst : st ∈ ((runPath T occ cs).2 ::
      (runAll T rest (runPath T occ cs).1.occupied).2).flatten := hst
    rw [List.flatten_cons, List.mem_append] at hst
    rcases hst with hst | hst
    · exact walkPath_steps_sound T cs _ st hst
    · exact ih _ st hst

/-- The per-path step lists of a whole pass, as walks. -/
theorem runAll_paths (T : Transform) :
    ∀ (css : List (List ℕ)) (occ : List (Coord × Coord)),
      ∀ sl ∈ (runAll T css occ).2, ∃ occ' cs, sl = (runPath T occ' cs).2 := by
  intro css
  induction css with
  | nil => intro occ sl hsl; simp [runAll] at hsl
  | cons cs rest ih =>
    intro occ sl hsl
    replace hsl : sl ∈ (runPath T occ cs).2 ::
      (runAll T rest (runPath T occ cs).1.occupied).2 := hsl
    rcases List.mem_cons.mp hsl with rfl | hsl2
    · exact ⟨occ, cs, rfl⟩
    · exact ih _ sl hsl2

/-- C3: after a path-generation pass in which `N` steps were accepted across
all paths sharing the one claimed-edge set, the set contains exactly `N`
distinct edge keys — it is exactly the (reversed) list of the accepted
steps' keys, with no duplicates — each key being the canonical `(min, max)`
pair of a consecutively visited adjacent-cell pair; and two different
unordered `{tile, neighbor}` pairs never produce the same `edgeKey` unless
they are the same pair of cells. -/
theorem edge_claim_invariant (T : Transform) (css : List (List ℕ)) :
    ((runAll T css []).1).length = (((runAll T css []).2).flatten).length ∧
    (runAll T css []).1 = ((((runAll T css []).2).flatten).map Step.key).reverse ∧
    ((((runAll T css []).2).flatten).map Step.key).Nodup ∧
    (∀ st ∈ ((runAll T css []).2).flatten,
      st.toTile ∈ st.fromTile.neighbors ∧ st.key = edgeKey st.toTile st.fromTile) ∧
    (∀ a b c d : Coord,
      edgeKey a b ≠ edgeKey c d ∨ (a = c ∧ b = d) ∨ (a = d ∧ b = c)) := by
  have hocc := runAll_occupied T css []
  rw [List.append_nil] at hocc
  refine ⟨?_, hocc, ?_, runAll_steps_sound T css [], ?_⟩
  · rw [hocc]
    simp only [List.length_reverse, List.length_map]
  · have hnd := runAll_occupied_nodup T css [] List.nodup_nil
    rw [hocc] at hnd
    exact List.nodup_reverse.mp hnd
  · intro a b c d
    by_cases h : edgeKey a b = edgeKey c d
    · exact Or.inr (edgeKey_inj a b c d h)
    · exact Or.inl h

/-- C4: within every path walk of a pass, no accepted step's new edge
midpoint equals the immediately preceding accepted step's edge midpoint. -/
theorem no_reversal_invariant (T : Transform) (css : List (List ℕ))
    (sl : List Step) (hsl : sl ∈ (runAll T css []).2) :
    List.Chain' (fun a b => b.mid ≠ a.mid) sl := by
  obtain ⟨occ', cs, rfl⟩ := runAll_paths T css [] sl hsl
  exact (walkPath_mid T cs _).2.1

/-- Witness for C4 on a concrete two-step run (identity-like transform,
choices `[0, 2]` from the start tile). -/
theorem no_reversal_invariant_witness :
    List.Chain' (fun a b => b.mid ≠ a.mid) (runPath ⟨1, 1, 0, 0⟩ [] [0, 2]).2 :=
  no_reversal_invariant ⟨1, 1, 0, 0⟩ [[0, 2]] _ (List.mem_cons_self _ _)

/-- C7 (amended): when the current tile has zero eligible neighbors (every
incident edge is already claimed), every sampled move is rejected, each
rejected sample still consumes one iteration of the budget, and the walk
terminates unchanged once the budgeted samples are exhausted — for any
budget, in particular the source's 100. -/
theorem blocked_tile_consumes_budget (T : Transform) (s : WalkState)
    (hb : ∀ n ∈ s.lastTile.neighbors, edgeKey n s.lastTile ∈ s.occupied) :
    ∀ cs : List ℕ, walkPath T s cs = (s, []) := by
  intro cs
  induction cs with
  | nil => rfl
  | cons c cs ih =>
    rw [walkPath_cons_rejected T s c cs (Or.inr (hb _ (pickNeighbor_mem s.lastTile c)))]
    exact ih

/-- Witness for C7 (amended) at the concrete blocked state. -/
theorem blocked_tile_consumes_budget_witness :
    (∀ n ∈ blockedState.lastTile.neighbors,
      edgeKey n blockedState.lastTile ∈ blockedState.occupied) ∧
    walkPath ⟨1, 1, 0, 0⟩ blockedState [0, 1, 2] = (blockedState, []) :=
  ⟨by decide,
    blocked_tile_consumes_budget ⟨1, 1, 0, 0⟩ blockedState (by decide) [0, 1, 2]⟩

/-- C7 (counterexample to the claim as stated): at a tile with zero eligible
neighbors the walk does not retry forever within one step — running the
full fixed budget of 100 sampled iterations (the source's `for _ in 0..100`)
terminates, every one of the 100 rejected samples having consumed one
iteration of that budget, with no step accepted and the state unchanged. -/
theorem blocked_tile_walk_terminates :
    walkPath ⟨1, 1, 0, 0⟩ blockedState (List.replicate 100 0) = (blockedState, []) ∧
    (List.replicate 100 0).length = 100 := by
  constructor
  · decide
  · rfl

@[simp] theorem Coord.mk_add_mk (a b c d : ℤ) :
    (⟨a, b⟩ : Coord) + ⟨c, d⟩ = ⟨a + c, b + d⟩ := rfl

theorem nodup_map_range (r : ℕ) (f : ℕ → Coord)
    (hf : ∀ i < r, ∀ j < r, f i = f j → i = j) :
    ((List.range r).map f).Nodup := by
  refine List.Nodup.map_on ?_ (List.nodup_range r)
  intro i hi j hj hij
  exact hf i (List.mem_range.mp hi) j (List.mem_range.mp hj) hij

theorem disjoint_map_range (r : ℕ) (f g : ℕ → Coord)
    (h : ∀ i < r, ∀ j < r, f i ≠ g j) :
    ((List.range r).map f).Disjoint ((List.range r).map g) := by
  intro a haf hag
  simp only [List.mem_map, List.mem_range] at haf hag
  obtain ⟨i, hi, rfl⟩ := haf
  obtain ⟨j, hj, hij⟩ := hag
  exact h i hi j hj hij.symm

theorem ringSide_nodup (r : ℕ) : ∀ k < 6, (ringSide r k).Nodup := by
  intro k hk
  interval_cases k <;>
  · unfold ringSide
    refine nodup_map_range r _ ?_
    intro i hi j hj hij
    simp [ringDirs, Coord.scale] at hij
    omega

theorem ringSide_disjoint (r : ℕ) :
    ∀ k < 6, ∀ l < 6, k < l → (ringSide r k).Disjoint (ringSide r l) := by
  intro k hk l hl hkl
  interval_cases k <;> interval_cases l <;>
    first
    | omega
    | (unfold ringSide
       refine disjoint_map_range r _ _ ?_
       intro i hi j hj hij
       simp [ringDirs, Coord.scale] at hij
       omega)

/-- C8: for every radius `r ≤ 40`, the ring enumeration around the origin
yields exactly one coordinate (the origin) for `r = 0` and exactly `6 * r`
coordinates for `r > 0`, with no duplicate coordinate within one ring. -/
theorem ring_cardinality (r : ℕ) (hr : r ≤ 40) :
    ((ring r).length = if r = 0 then 1 else 6 * r) ∧ (ring r).Nodup := by
  clear hr
  by_cases h0 : r = 0
  · subst h0
    exact ⟨rfl, by simp [ring, origin]⟩
  have hexp : ((List.range 6).map (fun k => ringSide r k)).flatten =
      ringSide r 0 ++ (ringSide r 1 ++ (ringSide r 2 ++ (ringSide r 3 ++
        (ringSide r 4 ++ (ringSide r 5 ++ []))))) := rfl
  constructor
  · rw [ring, if_neg h0, if_neg h0, hexp]
    simp only [List.append_nil, List.length_append, ringSide, List.length_map,
      List.length_range]
    omega
  · rw [ring, if_neg h0, hexp]
    simp only [List.append_nil, List.nodup_append, List.disjoint_append_right]
    have hn := ringSide_nodup r
    have hd := ringSide_disjoint r
    exact ⟨hn 0 (by norm_num),
      ⟨hn 1 (by norm_num),
        ⟨hn 2 (by norm_num),
          ⟨hn 3 (by norm_num),
            ⟨hn 4 (by norm_num), hn 5 (by norm_num),
              hd 4 (by norm_num) 5 (by norm_num) (by norm_num)⟩,
            hd 3 (by norm_num) 4 (by norm_num) (by norm_num),
            hd 3 (by norm_num) 5 (by norm_num) (by norm_num)⟩,
          hd 2 (by norm_num) 3 (by norm_num) (by norm_num),
          hd 2 (by norm_num) 4 (by norm_num) (by norm_num),
          hd 2 (by norm_num) 5 (by norm_num) (by norm_num)⟩,
        hd 1 (by norm_num) 2 (by norm_num) (by norm_num),
        hd 1 (by norm_num) 3 (by norm_num) (by norm_num),
        hd 1 (by norm_num) 4 (by norm_num) (by norm_num),
        hd 1 (by norm_num) 5 (by norm_num) (by norm_num)⟩,
      hd 0 (by norm_num) 1 (by norm_num) (by norm_num),
      hd 0 (by norm_num) 2 (by norm_num) (by norm_num),
      hd 0 (by norm_num) 3 (by norm_num) (by norm_num),
      hd 0 (by norm_num) 4 (by norm_num) (by norm_num),
      hd 0 (by norm_num) 5 (by norm_num) (by norm_num)⟩

/-- Witness for C8 at the concrete radius `2`. -/
theorem ring_cardinality_witness :
    (2 ≤ 40) ∧
    (((ring 2).length = if 2 = 0 then 1 else 6 * 2) ∧ (ring 2).Nodup) :=
  ⟨by norm_num, ring_cardinality 2 (by norm_num)⟩

end GridGame

